import Mathlib

/-!
Verification of `scroll-binder.js` (pieterbeulque/scroll-binder).

Modelling conventions:
* JS numbers are modelled as exact rationals (`ℚ`).
* `Math.round` is modelled by `jsRound`, the JS semantics on exact values:
  round half toward positive infinity, i.e. `⌊x + 1/2⌋`.
* Field names `from`/`to` of a tween object are rendered `vFrom`/`vTo`
  (`from` is a Lean keyword).
* Stateful code (the scroll throttle in `onScroll`) is modelled by explicit
  state passing over a millisecond-ticked event loop.
-/

/-- JS `Math.round` on exact values: rounds half toward positive infinity. -/
def jsRound (x : ℚ) : ℤ := ⌊x + 1/2⌋

/-- `ScrollBinder.prototype.buildPropertyFunction` (src/scroll-binder.js:191-204):
returns the closure mapping a scroll position to the property value:
`Math.round((from + (to - from) * scrollPos / over) * 100) / 100`, then clamped
between `from` and `to` (branching on `from < to`). -/
def buildPropertyFunction (vFrom vTo over : ℚ) : ℚ → ℚ := fun scrollPos =>
  let newValue : ℚ := (jsRound ((vFrom + (vTo - vFrom) * scrollPos / over) * 100) : ℚ) / 100
  if vFrom < vTo then
    if newValue < vFrom then vFrom else if newValue > vTo then vTo else newValue
  else
    if newValue > vFrom then vFrom else if newValue < vTo then vTo else newValue

/-- The clamp in `buildPropertyFunction` makes the function constant when the
endpoints coincide, whatever the rounding did. -/
theorem buildPropertyFunction_const (v over scrollPos : ℚ) :
    buildPropertyFunction v v over scrollPos = v := by
  unfold buildPropertyFunction
  simp only [lt_self_iff_false, if_false]
  split_ifs <;> linarith

/-- C1: for every `from`, `to`, every `over > 0` and every scroll position
(negative and past-`over` included), the value returned by the property
function built by `buildPropertyFunction` lies within
`[min(from,to), max(from,to)]`. -/
theorem buildPropertyFunction_within_bounds (vFrom vTo over scrollPos : ℚ)
    (hover : 0 < over) :
    min vFrom vTo ≤ buildPropertyFunction vFrom vTo over scrollPos ∧
      buildPropertyFunction vFrom vTo over scrollPos ≤ max vFrom vTo := by
  unfold buildPropertyFunction
  rcases lt_or_le vFrom vTo with h | h
  · rw [if_pos h, min_eq_left h.le, max_eq_right h.le]
    split_ifs <;> constructor <;> linarith
  · rw [if_neg (not_lt.mpr h), min_eq_right h, max_eq_left h]
    split_ifs <;> constructor <;> linarith

/-- Witness for C1 at a concrete input. -/
theorem buildPropertyFunction_within_bounds_witness :
    min (0 : ℚ) 10 ≤ buildPropertyFunction 0 10 70 35 ∧
      buildPropertyFunction 0 10 70 35 ≤ max (0 : ℚ) 10 :=
  buildPropertyFunction_within_bounds 0 10 70 35 (by norm_num)

/-- Rounding to two decimals written from the spec's words for C6:
round-half-away-from-zero at the hundredths digit. -/
def specRoundHalfAway (x : ℚ) : ℚ :=
  (if 0 ≤ x then (⌊100 * x + 1/2⌋ : ℤ) else -⌊-(100 * x) + 1/2⌋ : ℤ) / 100

/-- Clamp written from the spec's words: force the value into
`[min(from,to), max(from,to)]`. -/
def specClamp (vFrom vTo x : ℚ) : ℚ :=
  max (min vFrom vTo) (min (max vFrom vTo) x)

/-- Property function written from the spec's words for C6 (claimed variant):
raw linear value, rounded half away from zero at two decimals, then clamped. -/
def specValueHalfAway (vFrom vTo over scrollPos : ℚ) : ℚ :=
  specClamp vFrom vTo (specRoundHalfAway (vFrom + (vTo - vFrom) * scrollPos / over))

/-- Rounding to two decimals written from the amended words for C6:
round half toward positive infinity (JS `Math.round` semantics). -/
def specRoundHalfUp (x : ℚ) : ℚ := (⌊100 * x + 1/2⌋ : ℚ) / 100

/-- Property function written from the amended words for C6: raw linear value,
rounded half toward positive infinity at two decimals, then clamped. -/
def specValueHalfUp (vFrom vTo over scrollPos : ℚ) : ℚ :=
  specClamp vFrom vTo (specRoundHalfUp (vFrom + (vTo - vFrom) * scrollPos / over))

/-- Counterexample to C6: at `from = 0`, `to = -1`, `over = 200`,
`scrollPos = 1` the raw value is `-1/200 = -0.005`; the code (JS `Math.round`)
yields `0`, while round-half-away-from-zero would yield `-0.01`. -/
theorem buildPropertyFunction_not_half_away :
    buildPropertyFunction 0 (-1) 200 1 = 0 ∧
      specValueHalfAway 0 (-1) 200 1 = -1/100 ∧
      buildPropertyFunction 0 (-1) 200 1 ≠ specValueHalfAway 0 (-1) 200 1 := by
  have h1 : buildPropertyFunction 0 (-1) 200 1 = 0 := by
    norm_num [buildPropertyFunction, jsRound]
  have h2 : specValueHalfAway 0 (-1) 200 1 = -1/100 := by
    norm_num [specValueHalfAway, specRoundHalfAway, specClamp]
  refine ⟨h1, h2, ?_⟩
  rw [h1, h2]
  norm_num

/-- C6 amended: the interpolator rounds the raw value to two decimals using
round-half-toward-positive-infinity (`⌊100·x + 1/2⌋ / 100`, JS `Math.round`)
before clamping, for all inputs including negative raw values. -/
theorem buildPropertyFunction_eq_halfUp_spec (vFrom vTo over scrollPos : ℚ) :
    buildPropertyFunction vFrom vTo over scrollPos =
      specValueHalfUp vFrom vTo over scrollPos := by
  have hclamp : ∀ a b x : ℚ,
      (if a < b then (if x < a then a else if x > b then b else x)
       else (if x > a then a else if x < b then b else x)) = specClamp a b x := by
    intro a b x
    unfold specClamp
    rcases lt_or_le a b with h | h
    · rw [if_pos h, min_eq_left h.le, max_eq_right h.le]
      rcases lt_or_le x a with h1 | h1
      · rw [if_pos h1, min_eq_right (h1.le.trans h.le), max_eq_left h1.le]
      · rw [if_neg (not_lt.mpr h1)]
        rcases lt_or_le b x with h2 | h2
        · rw [if_pos h2, min_eq_left h2.le, max_eq_right h.le]
        · rw [if_neg (not_lt.mpr h2), min_eq_right h2, max_eq_right h1]
    · rw [if_neg (not_lt.mpr h), min_eq_right h, max_eq_left h]
      rcases lt_or_le a x with h1 | h1
      · rw [if_pos h1, min_eq_left h1.le, max_eq_right h]
      · rw [if_neg (not_lt.mpr h1)]
        rcases lt_or_le x b with h2 | h2
        · rw [if_pos h2, min_eq_right h1, max_eq_left h2.le]
        · rw [if_neg (not_lt.mpr h2), min_eq_right h1, max_eq_right h2]
  have hround : ((jsRound ((vFrom + (vTo - vFrom) * scrollPos / over) * 100) : ℚ) / 100) =
      specRoundHalfUp (vFrom + (vTo - vFrom) * scrollPos / over) := by
    unfold jsRound specRoundHalfUp
    rw [mul_comm]
  unfold buildPropertyFunction specValueHalfUp
  rw [hround, hclamp]

/-- C7: over `[0, over]` with `over > 0`, the built property function is
non-decreasing when `to ≥ from` and non-increasing when `to < from`. -/
theorem buildPropertyFunction_monotone (vFrom vTo over s1 s2 : ℚ)
    (hover : 0 < over) (hs0 : 0 ≤ s1) (hs : s1 < s2) (hs2 : s2 ≤ over) :
    (vFrom ≤ vTo →
      buildPropertyFunction vFrom vTo over s1 ≤ buildPropertyFunction vFrom vTo over s2) ∧
    (vTo < vFrom →
      buildPropertyFunction vFrom vTo over s2 ≤ buildPropertyFunction vFrom vTo over s1) := by
  have key : ∀ a b : ℚ, (vTo - vFrom) * a ≤ (vTo - vFrom) * b →
      (jsRound ((vFrom + (vTo - vFrom) * a / over) * 100) : ℚ) / 100 ≤
        (jsRound ((vFrom + (vTo - vFrom) * b / over) * 100) : ℚ) / 100 := by
    intro a b hab
    have h1 : (vTo - vFrom) * a / over ≤ (vTo - vFrom) * b / over :=
      (div_le_div_right hover).mpr hab
    have h3 : jsRound ((vFrom + (vTo - vFrom) * a / over) * 100) ≤
        jsRound ((vFrom + (vTo - vFrom) * b / over) * 100) :=
      Int.floor_le_floor (by linarith)
    have h4 : ((jsRound ((vFrom + (vTo - vFrom) * a / over) * 100) : ℤ) : ℚ) ≤
        ((jsRound ((vFrom + (vTo - vFrom) * b / over) * 100) : ℤ) : ℚ) := by
      exact_mod_cast h3
    linarith
  constructor
  · intro hft
    rcases eq_or_lt_of_le hft with heq | hlt
    · subst heq
      rw [buildPropertyFunction_const, buildPropertyFunction_const]
    · have hv := key s1 s2 (mul_le_mul_of_nonneg_left hs.le (by linarith))
      unfold buildPropertyFunction
      rw [if_pos hlt, if_pos hlt]
      split_ifs <;> linarith
  · intro htf
    have hv := key s2 s1 (mul_le_mul_of_nonpos_left hs.le (by linarith))
    unfold buildPropertyFunction
    rw [if_neg (not_lt.mpr htf.le), if_neg (not_lt.mpr htf.le)]
    split_ifs <;> linarith

/-- Witness for C7 at a concrete input. -/
theorem buildPropertyFunction_monotone_witness :
    buildPropertyFunction 0 10 70 10 ≤ buildPropertyFunction 0 10 70 20 :=
  (buildPropertyFunction_monotone 0 10 70 10 20 (by norm_num) (by norm_num)
    (by norm_num) (by norm_num)).1 (by norm_num)

/-- Accumulate a list of decimal digit characters into a natural number. -/
def digitsToNat : List Char → ℕ → ℕ
  | [], acc => acc
  | c :: cs, acc => digitsToNat cs (acc * 10 + (c.toNat - '0'.toNat))

/-- Modelled from the spec: the JS builtin `parseFloat` applied to the
computed-style string (`parseFloat($element.css(property))` in
`initProperty`); the builtin is not part of the repository. It skips leading
whitespace, reads an optional sign, integer digits and an optional fractional
part, ignores any trailing characters, and returns `none` (JS `NaN`) when no
digit was read. Exponent notation is not modelled. -/
def jsParseFloat (s : String) : Option ℚ :=
  let l := s.toList.dropWhile (fun c => c = ' ' ∨ c = '\t' ∨ c = '\n')
  let sgn : Bool × List Char :=
    match l with
    | '-' :: r => (true, r)
    | '+' :: r => (false, r)
    | _ => (false, l)
  let intPart := sgn.2.takeWhile Char.isDigit
  let rest := sgn.2.dropWhile Char.isDigit
  let fracPart : List Char :=
    match rest with
    | '.' :: r => r.takeWhile Char.isDigit
    | _ => []
  if intPart = [] ∧ fracPart = [] then none
  else
    let v : ℚ := (digitsToNat intPart 0 : ℚ) +
      (digitsToNat fracPart 0 : ℚ) / (10 ^ fracPart.length)
    some (if sgn.1 then -v else v)

/-- A tween descriptor as accepted by `initProperty`: the optional `from`,
`to`, `over` and `unit` fields of the user-supplied animation object. -/
structure Tween where
  vFrom : Option ℚ
  vTo : Option ℚ
  over : Option ℚ
  unit : Option String

/-- A resolved property binding as returned by `initProperty`: the scroll
position to value function, the transform flag and the unit suffix. -/
structure PropertyBinding where
  fn : ℚ → ℚ
  isTransform : Bool
  unit : String

/-- The fixed transform allow-list `this.transforms`
(src/scroll-binder.js:66). -/
def scrollBinderTransforms : List String :=
  ["scale", "scaleX", "scaleY", "rotate", "rotateX", "rotateY", "rotateZ",
   "translateX", "translateY"]

/-- `ScrollBinder.prototype.initProperty` (src/scroll-binder.js:149-180).
The style-read collaborator `$element.css` is passed as `css`. JS truthiness
of `value.over || this.scrollDistance` on numbers means `over = 0` (and an
absent `over`) falls back to the binding's global scroll distance; any other
number, negative included, is kept. A missing `from`/`to` is inherited from
the computed style via `parseFloat`, defaulting to `0` on `NaN`. The unit
falls back to `""` for transforms and `"px"` otherwise. -/
def initProperty (property : String) (value : Tween) (css : String → String)
    (scrollDistance : ℚ) : PropertyBinding :=
  let isTransform := scrollBinderTransforms.contains property
  let vFrom : ℚ :=
    match value.vFrom with
    | some x => x
    | none => (jsParseFloat (css property)).getD 0
  let vTo : ℚ :=
    match value.vTo with
    | some x => x
    | none => (jsParseFloat (css property)).getD 0
  let over : ℚ :=
    match value.over with
    | some x => if x = 0 then scrollDistance else x
    | none => scrollDistance
  let unitStr : String :=
    match value.unit with
    | some u => u
    | none => if isTransform then "" else "px"
  { fn := buildPropertyFunction vFrom vTo over
    isTransform := isTransform
    unit := unitStr }

/-- Counterexample to C5: a tween with `over = 0` is not rejected when the
property is resolved. `initProperty` (faithful to
`value.over || this.scrollDistance`) silently substitutes the global scroll
distance: with global distance `70`, the resolved value function interpolates
over `70` (midpoint `3.5` at scroll position `35`, endpoint `7` at `70`), and
the resolved binding is identical to the one for a tween with no `over` at
all. Nothing fails at build time. -/
theorem initProperty_over_zero_not_rejected :
    (initProperty "scale" ⟨some 0, some 7, some 0, none⟩ (fun _ => "") 70).fn 35 = 7/2 ∧
      (initProperty "scale" ⟨some 0, some 7, some 0, none⟩ (fun _ => "") 70).fn 70 = 7 ∧
      initProperty "scale" ⟨some 0, some 7, some 0, none⟩ (fun _ => "") 70 =
        initProperty "scale" ⟨some 0, some 7, none, none⟩ (fun _ => "") 70 := by
  refine ⟨?_, ?_, rfl⟩ <;> norm_num [initProperty, buildPropertyFunction, jsRound]

/-- C5 amended: for every tween whose `over` is `0` (JS falsy), `initProperty`
resolves it exactly as if `over` were unspecified, falling back to the
binding's global scroll distance; construction never fails. -/
theorem initProperty_over_zero_falls_back (p : String) (f t : Option ℚ)
    (u : Option String) (css : String → String) (gd : ℚ) :
    initProperty p ⟨f, t, some 0, u⟩ css gd = initProperty p ⟨f, t, none, u⟩ css gd := by
  rfl

/-- C8: when a tween gives neither `from` nor `to`, `initProperty` reads the
target's computed style for the property, parses it with `parseFloat`
(defaulting to `0` when unparsable), and the resolved value function is
constant at that parsed value for every scroll position; in particular a
style read returning `"10px"` resolves `from = to = 10` and the function is
constantly `10`, and an unparsable read such as `"auto"` resolves to the
constant `0`. -/
theorem initProperty_style_inference (css : String → String) (gd : ℚ)
    (p : String) (ov : Option ℚ) (u : Option String) (s : ℚ) :
    (initProperty p ⟨none, none, ov, u⟩ css gd).fn s = (jsParseFloat (css p)).getD 0 ∧
      (initProperty p ⟨none, none, ov, u⟩ (fun _ => "10px") gd).fn s = 10 ∧
      jsParseFloat "auto" = none ∧
      (initProperty p ⟨none, none, ov, u⟩ (fun _ => "auto") gd).fn s = 0 := by
  refine ⟨buildPropertyFunction_const _ _ _, ?_, rfl, ?_⟩
  · have h := buildPropertyFunction_const ((jsParseFloat "10px").getD 0)
      (match ov with
        | some x => if x = 0 then gd else x
        | none => gd) s
    calc (initProperty p ⟨none, none, ov, u⟩ (fun _ => "10px") gd).fn s
        = (jsParseFloat "10px").getD 0 := h
      _ = 10 := by
        show (digitsToNat ['1', '0'] 0 : ℚ) +
          (digitsToNat [] 0 : ℚ) / 10 ^ (0 : ℕ) = 10
        norm_num [digitsToNat]
        decide
  · have h := buildPropertyFunction_const ((jsParseFloat "auto").getD 0)
      (match ov with
        | some x => if x = 0 then gd else x
        | none => gd) s
    calc (initProperty p ⟨none, none, ov, u⟩ (fun _ => "auto") gd).fn s
        = (jsParseFloat "auto").getD 0 := h
      _ = 0 := rfl

/-- C10: when both `from` and `to` are present in the tween, the binding
returned by `initProperty` does not depend on the style-read collaborator:
two runs that differ only in the computed styles the environment would
return produce identical bindings (value function, transform flag and unit),
so the style reader is never consulted. -/
theorem initProperty_noninterference (p : String) (tw : Tween) (gd : ℚ)
    (css1 css2 : String → String) (a b : ℚ)
    (hf : tw.vFrom = some a) (ht : tw.vTo = some b) :
    initProperty p tw css1 gd = initProperty p tw css2 gd := by
  obtain ⟨f, t, ov, u⟩ := tw
  cases hf
  cases ht
  rfl

/-- Witness for C10 at a concrete input: two style readers that disagree on
every property still yield the same resolved binding. -/
theorem initProperty_noninterference_witness :
    initProperty "scale" ⟨some 1, some 2, none, none⟩ (fun _ => "10px") 70 =
      initProperty "scale" ⟨some 1, some 2, none, none⟩ (fun _ => "999px") 70 :=
  initProperty_noninterference "scale" ⟨some 1, some 2, none, none⟩ 70
    (fun _ => "10px") (fun _ => "999px") 1 2 rfl rfl

/-- A style write issued by `animate`: either one individual
`$element.css(property, value)` call, or the single
`$element.css({'-webkit-transform', '-ms-transform', 'transform'})` call
carrying the composite transform string (the vendor-prefixed keys are set in
that same one call, so it is modelled as one write). -/
inductive StyleWrite
  | single (property : String) (value : String)
  | transformW (value : String)
  deriving DecidableEq

/-- One iteration of the property loop in `ScrollBinder.prototype.animate`
(src/scroll-binder.js:233-246): a transform property is pushed onto the
transform stack, any other property is written immediately. The JS transform
stack is an object keyed by property name, iterated in insertion order; it is
modelled as an ordered list of pairs (property names within one selector are
object keys of the user config, hence distinct). The JS number-to-string
coercion in `value.fn(scrollPos) + value.unit` is the collaborator
`numToStr`. -/
def animStep (numToStr : ℚ → String) (scrollPos : ℚ)
    (acc : List (String × String) × List StyleWrite)
    (p : String × PropertyBinding) : List (String × String) × List StyleWrite :=
  if p.2.isTransform then
    (acc.1 ++ [(p.1, numToStr (p.2.fn scrollPos) ++ p.2.unit)], acc.2)
  else
    (acc.1, acc.2 ++ [StyleWrite.single p.1 (numToStr (p.2.fn scrollPos) ++ p.2.unit)])

/-- The transform-string accumulation
`transformString += transformProperty + '(' + transformStack[transformProperty] + ') '`
(src/scroll-binder.js:254-258). -/
def transformConcat (acc : String) (nv : String × String) : String :=
  acc ++ nv.1 ++ "(" ++ nv.2 ++ ") "

/-- The per-selector body of `ScrollBinder.prototype.animate`
(src/scroll-binder.js:226-262): loop over the selector's properties in
declaration order, writing non-transform properties individually and stacking
transform properties; afterwards, if the stack is non-empty, issue one
transform write with the composite string. -/
def animateSelector (numToStr : ℚ → String)
    (props : List (String × PropertyBinding)) (scrollPos : ℚ) : List StyleWrite :=
  let r := props.foldl (animStep numToStr scrollPos) ([], [])
  if r.1 = [] then r.2
  else r.2 ++ [StyleWrite.transformW (r.1.foldl transformConcat "")]

/-- The outer selector loop of `ScrollBinder.prototype.animate`
(src/scroll-binder.js:220-267), tagging each write with its selector. The
`requestFrame` deferral wraps this whole body in one scheduled callback. -/
def animate (numToStr : ℚ → String)
    (tree : List (String × List (String × PropertyBinding))) (scrollPos : ℚ) :
    List (String × StyleWrite) :=
  tree.foldl
    (fun ws sel => ws ++ (animateSelector numToStr sel.2 scrollPos).map (fun w => (sel.1, w)))
    []

/-- The composite transform string as the spec words it: the selector's
transform properties in declaration order, each contributing
`name(value·unit) ` with a trailing space. -/
def compositeTransform (numToStr : ℚ → String) (scrollPos : ℚ)
    (props : List (String × PropertyBinding)) : String :=
  ((props.filter (fun p => p.2.isTransform)).map
      (fun p => (p.1, numToStr (p.2.fn scrollPos) ++ p.2.unit))).foldl transformConcat ""

/-- The property fold of `animate` splits into the stacked transform pairs
(declaration order) and the immediate non-transform writes. -/
theorem animStep_foldl (numToStr : ℚ → String) (scrollPos : ℚ)
    (props : List (String × PropertyBinding)) :
    ∀ (stack : List (String × String)) (ws : List StyleWrite),
      props.foldl (animStep numToStr scrollPos) (stack, ws) =
        (stack ++ (props.filter (fun p => p.2.isTransform)).map
            (fun p => (p.1, numToStr (p.2.fn scrollPos) ++ p.2.unit)),
         ws ++ (props.filter (fun p => !p.2.isTransform)).map
            (fun p => StyleWrite.single p.1 (numToStr (p.2.fn scrollPos) ++ p.2.unit))) := by
  induction props with
  | nil => intro stack ws; simp
  | cons p ps ih =>
    intro stack ws
    by_cases h : p.2.isTransform
    · simp [animStep, h, ih, List.filter_cons, List.append_assoc]
    · simp [animStep, h, ih, List.filter_cons, List.append_assoc]

/-- C2: in one `animate` pass over a selector, the transform-producing
properties are accumulated in declaration order into a single composite
string `prop1(v1u1) prop2(v2u2) ` (trailing space) and written once as the
element's transform style; they receive zero individual writes (the
individual writes are exactly the non-transform properties, in declaration
order), and a selector with no transform properties gets no transform write
at all. -/
theorem animateSelector_transform_merge (numToStr : ℚ → String)
    (props : List (String × PropertyBinding)) (scrollPos : ℚ) :
    animateSelector numToStr props scrollPos =
      (props.filter (fun p => !p.2.isTransform)).map
          (fun p => StyleWrite.single p.1 (numToStr (p.2.fn scrollPos) ++ p.2.unit)) ++
        (if (props.filter (fun p => p.2.isTransform)).isEmpty then []
         else [StyleWrite.transformW (compositeTransform numToStr scrollPos props)]) := by
  unfold animateSelector compositeTransform
  rw [animStep_foldl]
  by_cases h : props.filter (fun p => p.2.isTransform) = []
  · simp [h]
  · have h2 : ((props.filter (fun p => p.2.isTransform)).map
        (fun p => (p.1, numToStr (p.2.fn scrollPos) ++ p.2.unit))) ≠ [] := by
      simpa using h
    simp [h, h2]

/-- Kind of a pending JS timeout armed by `onScroll`: the 16ms
`scrollFlag`-reset timer or the 64ms trailing `scrollEnd` timer. -/
inductive TimerKind
  | flagReset
  | trailing
  deriving DecidableEq

/-- A pending timeout: its handle (`setTimeout` return value, modelled as a
serial number), its absolute fire time in ms, and its kind. -/
structure Timer where
  id : ℕ
  fireAt : ℕ
  kind : TimerKind
  deriving DecidableEq

/-- Observable events of the throttle model: an `animate` invocation (with
the scroll position read at that time), or a trailing re-invocation that was
dropped because `scrollFlag` was still false. -/
inductive LogEntry
  | animateCall (time : ℕ) (scrollPos : ℚ)
  | trailingDropped (time : ℕ)
  deriving DecidableEq

/-- State of one `ScrollBinder` instance plus its environment's timer queue:
current time, `this.scrollFlag`, `this.scrollEnd` (last trailing handle, may
be stale), the pending timeouts, the next fresh timeout handle, whether the
scroll listener is still bound, and the log of observable events. -/
structure ThrottleState where
  time : ℕ
  scrollFlag : Bool
  scrollEnd : Option ℕ
  timers : List Timer
  nextId : ℕ
  bound : Bool
  log : List LogEntry
  deriving DecidableEq

/-- JS `setTimeout(callback, delay)`: arm a fresh timer, return its handle. -/
def setTimer (k : TimerKind) (delay : ℕ) (s : ThrottleState) : ℕ × ThrottleState :=
  (s.nextId,
   { s with
      timers := s.timers ++ [{ id := s.nextId, fireAt := s.time + delay, kind := k }],
      nextId := s.nextId + 1 })

/-- Timer-queue effect of JS `clearTimeout(handle)`: remove the pending
timer with that handle; a `null` or stale handle removes nothing. -/
def clearList (h : Option ℕ) (l : List Timer) : List Timer :=
  match h with
  | none => l
  | some i => l.filter (fun tm => tm.id ≠ i)

/-- JS `clearTimeout(handle)` on the instance state. -/
def clearTimer (h : Option ℕ) (s : ThrottleState) : ThrottleState :=
  { s with timers := clearList h s.timers }

/-- `ScrollBinder.prototype.onScroll` (src/scroll-binder.js:273-302), with
`env` the scroll-position read `$(window).scrollTop()`. If `scrollFlag` is
false the event is dropped (trailing re-invocations log the drop; nothing
else happens). Otherwise: clear the previous `scrollEnd` timeout, lower the
flag, animate at the current scroll position, arm the 16ms flag-reset
timeout, and — unless this call is the trailing re-invocation — arm a fresh
64ms trailing timeout and remember its handle in `scrollEnd`. -/
def onScroll (env : ℕ → ℚ) (fromScrollEnd : Bool) (s : ThrottleState) : ThrottleState :=
  if s.scrollFlag = false then
    if fromScrollEnd then { s with log := s.log ++ [LogEntry.trailingDropped s.time] } else s
  else
    let s1 := clearTimer s.scrollEnd s
    let s2 := { s1 with
                  scrollFlag := false,
                  log := s1.log ++ [LogEntry.animateCall s1.time (env s1.time)] }
    let s3 := (setTimer TimerKind.flagReset 16 s2).2
    if fromScrollEnd then s3
    else
      let p := setTimer TimerKind.trailing 64 s3
      { p.2 with scrollEnd := some p.1 }

/-- Fire one timeout callback: the 16ms timer restores `scrollFlag`; the
64ms trailing timer re-invokes `onScroll` with `fromScrollEnd = true`. -/
def fireTimer (env : ℕ → ℚ) (tm : Timer) (s : ThrottleState) : ThrottleState :=
  match tm.kind with
  | TimerKind.flagReset => { s with scrollFlag := true }
  | TimerKind.trailing => onScroll env true s

/-- Earliest-deadline-first choice among timers, insertion order on ties. -/
def pickMin : Timer → List Timer → Timer
  | m, [] => m
  | m, x :: xs => pickMin (if x.fireAt < m.fireAt then x else m) xs

/-- The due timer (fire time reached) the event loop runs next, if any. -/
def selectDue (timers : List Timer) (now : ℕ) : Option Timer :=
  match timers.filter (fun tm => tm.fireAt ≤ now) with
  | [] => none
  | x :: xs => some (pickMin x xs)

/-- Remove a pending timer by handle (it is about to run or be discarded). -/
def removeTimer (i : ℕ) (s : ThrottleState) : ThrottleState :=
  { s with timers := s.timers.filter (fun tm => tm.id ≠ i) }

/-- Run all due timeout callbacks at the current time, earliest deadline
first (a fired callback only arms strictly-future timers, so the fuel
`s.timers.length + 1` used by `tick` always suffices). -/
def fireDue (env : ℕ → ℚ) : ℕ → ThrottleState → ThrottleState
  | 0, s => s
  | fuel + 1, s =>
    match selectDue s.timers s.time with
    | none => s
    | some tm => fireDue env fuel (fireTimer env tm (removeTimer tm.id s))

/-- `exports.destroy` (src/scroll-binder.js:26-33):
`module.instance.reset().unbind()`. `reset` (src/scroll-binder.js:94-96) is
a no-op (`return this;`), and `unbind` only detaches the scroll listener, so
the only state change is that scroll events stop being delivered; pending
timeouts are left armed and their callbacks still run. -/
def destroyBinder (s : ThrottleState) : ThrottleState :=
  { s with bound := false }

/-- Apply `destroy` when it is scheduled for the current time. -/
def destroyStep (destroyAt : Option ℕ) (s : ThrottleState) : ThrottleState :=
  if destroyAt = some s.time then destroyBinder s else s

/-- Deliver a scroll event scheduled for the current time, if the listener
is still bound. -/
def scrollEventStep (env : ℕ → ℚ) (events : List ℕ) (s : ThrottleState) : ThrottleState :=
  if s.bound then (if s.time ∈ events then onScroll env false s else s) else s

/-- One millisecond of the event loop: run due timeout callbacks, apply
`destroy` if scheduled now, deliver a scroll event if one occurs now (and the
listener is still bound), advance the clock. At most one scroll event per
millisecond is modelled. -/
def tick (env : ℕ → ℚ) (events : List ℕ) (destroyAt : Option ℕ)
    (s : ThrottleState) : ThrottleState :=
  let s3 := scrollEventStep env events
    (destroyStep destroyAt (fireDue env (s.timers.length + 1) s))
  { s3 with time := s3.time + 1 }

/-- The initial throttle state: `scrollFlag = true`, `scrollEnd = null`, no
pending timeouts, listener bound (src/scroll-binder.js:63-64). -/
def initialState : ThrottleState :=
  { time := 0, scrollFlag := true, scrollEnd := none, timers := [], nextId := 0,
    bound := true, log := [] }

/-- Run the event loop for `n` milliseconds from the initial state. -/
def runBinder (env : ℕ → ℚ) (events : List ℕ) (destroyAt : Option ℕ) : ℕ → ThrottleState
  | 0 => initialState
  | n + 1 => tick env events destroyAt (runBinder env events destroyAt n)

set_option maxRecDepth 100000 in
/-- C3: from the idle state, a scroll event at t=0 triggers one immediate
animate call; a second event 5ms later is suppressed by the 16ms window and
does not reset the trailing timer, so exactly one trailing call happens at
t=64 (64ms after the last accepted event). With a third event at t=20
(after the 16ms window) that event is accepted immediately, and the single
trailing call moves to t=84 = 20 + 64. -/
theorem throttle_trace_spec :
    (runBinder (fun t => (t : ℚ)) [0, 5] none 100).log =
      [LogEntry.animateCall 0 0, LogEntry.animateCall 64 64] ∧
    (runBinder (fun t => (t : ℚ)) [0, 5, 20] none 100).log =
      [LogEntry.animateCall 0 0, LogEntry.animateCall 20 20,
       LogEntry.animateCall 84 84] := by
  constructor <;> decide

set_option maxRecDepth 100000 in
/-- C4 is violated by the code: `reset` is a no-op, so `destroy` (scroll at
t=0, destroy at t=20) leaves the trailing timer armed (still pending, with
the listener unbound, right after destruction), and when it fires at t=64 it
runs `onScroll`/`animate`, which writes to the elements — the claim requires
the timer to be cancelled and a late fire to write nothing. -/
theorem destroy_leaks_trailing_timer :
    ({ id := 1, fireAt := 64, kind := TimerKind.trailing } : Timer) ∈
        (runBinder (fun t => (t : ℚ)) [0] (some 20) 21).timers ∧
      (runBinder (fun t => (t : ℚ)) [0] (some 20) 21).bound = false ∧
      (runBinder (fun t => (t : ℚ)) [0] (some 20) 100).log =
        [LogEntry.animateCall 0 0, LogEntry.animateCall 64 64] := by
  refine ⟨?_, ?_, ?_⟩ <;> decide

/-- `pickMin` returns its seed or a list element, with minimal fire time. -/
theorem pickMin_spec (xs : List Timer) : ∀ m : Timer,
    (pickMin m xs = m ∨ pickMin m xs ∈ xs) ∧
      (pickMin m xs).fireAt ≤ m.fireAt ∧
      ∀ y ∈ xs, (pickMin m xs).fireAt ≤ y.fireAt := by
  induction xs with
  | nil =>
    intro m
    refine ⟨Or.inl rfl, le_refl _, ?_⟩
    intro y hy
    cases hy
  | cons x xs ih =>
    intro m
    simp only [pickMin]
    by_cases hf : x.fireAt < m.fireAt
    · rw [if_pos hf]
      have h := ih x
      refine ⟨?_, h.2.1.trans hf.le, ?_⟩
      · rcases h.1 with h1 | h1
        · rw [h1]
          exact Or.inr (List.mem_cons_self _ _)
        · exact Or.inr (List.mem_cons_of_mem _ h1)
      · intro y hy
        rcases List.mem_cons.mp hy with rfl | hy2
        · exact h.2.1
        · exact h.2.2 y hy2
    · rw [if_neg hf]
      have h := ih m
      refine ⟨?_, h.2.1, ?_⟩
      · rcases h.1 with h1 | h1
        · exact Or.inl h1
        · exact Or.inr (List.mem_cons_of_mem _ h1)
      · intro y hy
        rcases List.mem_cons.mp hy with rfl | hy2
        · exact h.2.1.trans (not_lt.mp hf)
        · exact h.2.2 y hy2

/-- A timer selected by `selectDue` is pending, due, and of minimal fire
time among the due timers. -/
theorem selectDue_spec (timers : List Timer) (now : ℕ) (tm : Timer)
    (h : selectDue timers now = some tm) :
    tm ∈ timers ∧ tm.fireAt ≤ now ∧
      ∀ y ∈ timers, y.fireAt ≤ now → tm.fireAt ≤ y.fireAt := by
  unfold selectDue at h
  rcases hf : timers.filter (fun tm => tm.fireAt ≤ now) with _ | ⟨x, xs⟩
  · rw [hf] at h
    cases h
  · rw [hf] at h
    have htm : tm = pickMin x xs := by
      injection h with h2
      exact h2.symm
    subst htm
    have hs := pickMin_spec xs x
    have hmem : pickMin x xs ∈ x :: xs := by
      rcases hs.1 with h1 | h1
      · rw [h1]
        exact List.mem_cons_self _ _
      · exact List.mem_cons_of_mem _ h1
    have hmemf : pickMin x xs ∈ timers.filter (fun tm => tm.fireAt ≤ now) := by
      rw [hf]
      exact hmem
    have hmem2 := List.mem_filter.mp hmemf
    refine ⟨hmem2.1, by simpa using hmem2.2, ?_⟩
    intro y hy hyn
    have hyf : y ∈ timers.filter (fun tm => tm.fireAt ≤ now) :=
      List.mem_filter.mpr ⟨hy, by simpa using hyn⟩
    rw [hf] at hyf
    rcases List.mem_cons.mp hyf with rfl | h2
    · exact hs.2.1
    · exact hs.2.2 y h2

/-- Clearing a timeout handle only removes timers. -/
theorem clearList_sublist (h : Option ℕ) (l : List Timer) :
    List.Sublist (clearList h l) l := by
  cases h with
  | none => exact List.Sublist.refl l
  | some i => exact List.filter_sublist l

/-- Inductive invariant of the throttle state machine: pending timer handles
are fresh and distinct; every pending trailing timer is the one recorded in
`scrollEnd`; and while the flag is down there is a pending flag-reset timer
that fires strictly before any pending trailing timer. -/
structure ThrottleInv (s : ThrottleState) : Prop where
  ids_lt : ∀ tm ∈ s.timers, tm.id < s.nextId
  ids_distinct : s.timers.Pairwise (fun a b => a.id ≠ b.id)
  trailing_tracked : ∀ tm ∈ s.timers, tm.kind = TimerKind.trailing →
    s.scrollEnd = some tm.id
  flag_timer : s.scrollFlag = false →
    ∃ fr ∈ s.timers, fr.kind = TimerKind.flagReset ∧
      ∀ tr ∈ s.timers, tr.kind = TimerKind.trailing → fr.fireAt < tr.fireAt

/-- Under the invariant, clearing the `scrollEnd` handle removes every
pending trailing timer. -/
theorem clear_no_trailing (s : ThrottleState) (hinv : ThrottleInv s) :
    ∀ tm ∈ clearList s.scrollEnd s.timers, tm.kind ≠ TimerKind.trailing := by
  intro tm hm hk
  cases hse : s.scrollEnd with
  | none =>
    rw [hse] at hm
    have hm2 : tm ∈ s.timers := hm
    have h3 := hinv.trailing_tracked tm hm2 hk
    rw [hse] at h3
    exact Option.noConfusion h3
  | some i =>
    rw [hse] at hm
    simp only [clearList] at hm
    have h2 := List.mem_filter.mp hm
    have h3 := hinv.trailing_tracked tm h2.1 hk
    rw [hse] at h3
    have h4 : tm.id ≠ i := by simpa using h2.2
    have h5 : i = tm.id := by
      injection h3
    exact h4 h5.symm

/-- Unfolding `onScroll` when the throttle flag is down: the event is
dropped, and only a trailing re-invocation logs the drop. -/
theorem onScroll_drop (env : ℕ → ℚ) (fromScrollEnd : Bool) (s : ThrottleState)
    (hf : s.scrollFlag = false) :
    onScroll env fromScrollEnd s =
      if fromScrollEnd then
        { s with log := s.log ++ [LogEntry.trailingDropped s.time] }
      else s := by
  unfold onScroll
  rw [if_pos hf]

/-- Unfolding an accepted external scroll event: the old trailing timeout is
cleared, `animate` runs, the flag-reset timeout is armed at +16ms and a fresh
trailing timeout at +64ms, its handle stored in `scrollEnd`. -/
theorem onScroll_accept_ext (env : ℕ → ℚ) (s : ThrottleState)
    (hft : s.scrollFlag = true) :
    onScroll env false s =
      { time := s.time, scrollFlag := false, scrollEnd := some (s.nextId + 1),
        timers := (clearList s.scrollEnd s.timers ++
          [{ id := s.nextId, fireAt := s.time + 16, kind := TimerKind.flagReset }]) ++
          [{ id := s.nextId + 1, fireAt := s.time + 64, kind := TimerKind.trailing }],
        nextId := s.nextId + 2, bound := s.bound,
        log := s.log ++ [LogEntry.animateCall s.time (env s.time)] } := by
  unfold onScroll
  rw [if_neg (by simp [hft])]
  rfl

/-- Unfolding an accepted trailing re-invocation: as for an external event,
except that no new trailing timeout is armed and `scrollEnd` keeps its (now
stale) handle. -/
theorem onScroll_accept_trailing (env : ℕ → ℚ) (s : ThrottleState)
    (hft : s.scrollFlag = true) :
    onScroll env true s =
      { time := s.time, scrollFlag := false, scrollEnd := s.scrollEnd,
        timers := clearList s.scrollEnd s.timers ++
          [{ id := s.nextId, fireAt := s.time + 16, kind := TimerKind.flagReset }],
        nextId := s.nextId + 1, bound := s.bound,
        log := s.log ++ [LogEntry.animateCall s.time (env s.time)] } := by
  unfold onScroll
  rw [if_neg (by simp [hft])]
  rfl

/-- `onScroll` preserves the throttle invariant. -/
theorem onScroll_inv (env : ℕ → ℚ) (fromScrollEnd : Bool) (s : ThrottleState)
    (hinv : ThrottleInv s) : ThrottleInv (onScroll env fromScrollEnd s) := by
  by_cases hf : s.scrollFlag = false
  · rw [onScroll_drop env fromScrollEnd s hf]
    cases fromScrollEnd
    · exact hinv
    · exact ⟨hinv.ids_lt, hinv.ids_distinct, hinv.trailing_tracked, hinv.flag_timer⟩
  · have hft : s.scrollFlag = true := by
      cases hfl : s.scrollFlag
      · exact absurd hfl hf
      · rfl
    have hclear := clear_no_trailing s hinv
    have hAlt : ∀ a ∈ clearList s.scrollEnd s.timers, a.id < s.nextId :=
      fun a ha => hinv.ids_lt a ((clearList_sublist _ _).subset ha)
    have hApw : (clearList s.scrollEnd s.timers).Pairwise (fun a b => a.id ≠ b.id) :=
      hinv.ids_distinct.sublist (clearList_sublist _ _)
    cases fromScrollEnd
    · rw [onScroll_accept_ext env s hft]
      constructor
      · intro tm hm
        show tm.id < s.nextId + 2
        simp only [List.mem_append, List.mem_singleton] at hm
        rcases hm with (hm | rfl) | rfl
        · have := hAlt tm hm
          omega
        · show s.nextId < s.nextId + 2
          omega
        · show s.nextId + 1 < s.nextId + 2
          omega
      · refine List.pairwise_append.mpr ⟨List.pairwise_append.mpr ⟨hApw, ?_, ?_⟩, ?_, ?_⟩
        · exact List.pairwise_singleton _ _
        · intro a ha b hb
          simp only [List.mem_singleton] at hb
          subst hb
          have := hAlt a ha
          show a.id ≠ s.nextId
          omega
        · exact List.pairwise_singleton _ _
        · intro a ha b hb
          simp only [List.mem_singleton] at hb
          subst hb
          show a.id ≠ s.nextId + 1
          simp only [List.mem_append, List.mem_singleton] at ha
          rcases ha with ha | rfl
          · have := hAlt a ha
            omega
          · show s.nextId ≠ s.nextId + 1
            omega
      · intro tm hm hk
        simp only [List.mem_append, List.mem_singleton] at hm
        rcases hm with (hm | rfl) | rfl
        · exact absurd hk (hclear tm hm)
        · exact absurd hk (by simp)
        · rfl
      · intro _
        refine ⟨{ id := s.nextId, fireAt := s.time + 16, kind := TimerKind.flagReset },
          ?_, rfl, ?_⟩
        · simp [List.mem_append]
        · intro tr htr hk
          simp only [List.mem_append, List.mem_singleton] at htr
          rcases htr with (htr | rfl) | rfl
          · exact absurd hk (hclear tr htr)
          · exact absurd hk (by simp)
          · show s.time + 16 < s.time + 64
            omega
    · rw [onScroll_accept_trailing env s hft]
      constructor
      · intro tm hm
        show tm.id < s.nextId + 1
        simp only [List.mem_append, List.mem_singleton] at hm
        rcases hm with hm | rfl
        · have := hAlt tm hm
          omega
        · show s.nextId < s.nextId + 1
          omega
      · refine List.pairwise_append.mpr ⟨hApw, List.pairwise_singleton _ _, ?_⟩
        intro a ha b hb
        simp only [List.mem_singleton] at hb
        subst hb
        have := hAlt a ha
        show a.id ≠ s.nextId
        omega
      · intro tm hm hk
        simp only [List.mem_append, List.mem_singleton] at hm
        rcases hm with hm | rfl
        · exact absurd hk (hclear tm hm)
        · exact absurd hk (by simp)
      · intro _
        refine ⟨{ id := s.nextId, fireAt := s.time + 16, kind := TimerKind.flagReset },
          ?_, rfl, ?_⟩
        · simp [List.mem_append]
        · intro tr htr hk
          simp only [List.mem_append, List.mem_singleton] at htr
          rcases htr with htr | rfl
          · exact absurd hk (hclear tr htr)
          · exact absurd hk (by simp)

/-- Recognizer for a dropped trailing re-invocation in the log. -/
def isDropEntry : LogEntry → Bool
  | LogEntry.trailingDropped _ => true
  | _ => false

/-- An accepted external scroll event never logs a trailing drop. -/
theorem onScroll_ext_drops (env : ℕ → ℚ) (s : ThrottleState) :
    (onScroll env false s).log.filter isDropEntry = s.log.filter isDropEntry := by
  by_cases hf : s.scrollFlag = false
  · rw [onScroll_drop env false s hf]
    simp
  · have hft : s.scrollFlag = true := by
      cases hfl : s.scrollFlag
      · exact absurd hfl hf
      · rfl
    rw [onScroll_accept_ext env s hft]
    simp [isDropEntry, List.filter_append]

/-- Firing the selected due timer preserves the invariant and never logs a
trailing drop: a due trailing timer always finds the flag up, because the
flag-reset timer armed with it fired strictly earlier. -/
theorem fireStep_inv (env : ℕ → ℚ) (tm : Timer) (s : ThrottleState)
    (hinv : ThrottleInv s) (hsel : selectDue s.timers s.time = some tm) :
    ThrottleInv (fireTimer env tm (removeTimer tm.id s)) ∧
      (fireTimer env tm (removeTimer tm.id s)).log.filter isDropEntry =
        s.log.filter isDropEntry := by
  obtain ⟨hmem, hdue, hmin⟩ := selectDue_spec s.timers s.time tm hsel
  have hsub : List.Sublist ((removeTimer tm.id s).timers) s.timers :=
    List.filter_sublist s.timers
  cases hk : tm.kind with
  | flagReset =>
    simp only [fireTimer, hk]
    refine ⟨⟨?_, ?_, ?_, ?_⟩, rfl⟩
    · intro x hx
      exact hinv.ids_lt x (hsub.subset hx)
    · exact hinv.ids_distinct.sublist hsub
    · intro x hx hkx
      exact hinv.trailing_tracked x (hsub.subset hx) hkx
    · intro hff
      exact absurd hff (by simp)
  | trailing =>
    have hflag : s.scrollFlag = true := by
      by_contra hc
      have hfalse : s.scrollFlag = false := by
        cases hb : s.scrollFlag
        · rfl
        · exact absurd hb hc
      obtain ⟨fr, hfrmem, hfrkind, hfrlt⟩ := hinv.flag_timer hfalse
      have h1 : fr.fireAt < tm.fireAt := hfrlt tm hmem hk
      have h2 : fr.fireAt ≤ s.time := le_of_lt (lt_of_lt_of_le h1 hdue)
      have h3 : tm.fireAt ≤ fr.fireAt := hmin fr hfrmem h2
      omega
    have hinv2 : ThrottleInv (removeTimer tm.id s) := by
      refine ⟨?_, ?_, ?_, ?_⟩
      · intro x hx
        exact hinv.ids_lt x (hsub.subset hx)
      · exact hinv.ids_distinct.sublist hsub
      · intro x hx hkx
        exact hinv.trailing_tracked x (hsub.subset hx) hkx
      · intro hff
        have hff2 : s.scrollFlag = false := hff
        rw [hflag] at hff2
        exact Bool.noConfusion hff2
    have haccept : (removeTimer tm.id s).scrollFlag = true := hflag
    simp only [fireTimer, hk]
    refine ⟨onScroll_inv env true _ hinv2, ?_⟩
    rw [onScroll_accept_trailing env _ haccept]
    simp [isDropEntry, List.filter_append, removeTimer]

/-- `fireDue` preserves the invariant and never logs a trailing drop. -/
theorem fireDue_inv (env : ℕ → ℚ) : ∀ (fuel : ℕ) (s : ThrottleState),
    ThrottleInv s →
    ThrottleInv (fireDue env fuel s) ∧
      (fireDue env fuel s).log.filter isDropEntry = s.log.filter isDropEntry := by
  intro fuel
  induction fuel with
  | zero =>
    intro s h
    exact ⟨h, rfl⟩
  | succ n ih =>
    intro s h
    rcases hsel : selectDue s.timers s.time with _ | tm
    · simp only [fireDue, hsel]
      exact ⟨h, trivial⟩
    · simp only [fireDue, hsel]
      have hstep := fireStep_inv env tm s h hsel
      have hrec := ih _ hstep.1
      exact ⟨hrec.1, hrec.2.trans hstep.2⟩

/-- `destroy` only unbinds the listener; the invariant is untouched. -/
theorem destroyBinder_inv (s : ThrottleState) (h : ThrottleInv s) :
    ThrottleInv (destroyBinder s) :=
  ⟨h.ids_lt, h.ids_distinct, h.trailing_tracked, h.flag_timer⟩

/-- One event-loop millisecond preserves the invariant and never logs a
trailing drop. -/
theorem tick_inv (env : ℕ → ℚ) (events : List ℕ) (destroyAt : Option ℕ)
    (s : ThrottleState) (h : ThrottleInv s) :
    ThrottleInv (tick env events destroyAt s) ∧
      (tick env events destroyAt s).log.filter isDropEntry =
        s.log.filter isDropEntry := by
  have h1 := fireDue_inv env (s.timers.length + 1) s h
  have h2 : ThrottleInv (destroyStep destroyAt (fireDue env (s.timers.length + 1) s)) ∧
      (destroyStep destroyAt (fireDue env (s.timers.length + 1) s)).log.filter isDropEntry =
        s.log.filter isDropEntry := by
    unfold destroyStep
    split_ifs
    · exact ⟨destroyBinder_inv _ h1.1, h1.2⟩
    · exact h1
  have h3 : ThrottleInv (scrollEventStep env events
        (destroyStep destroyAt (fireDue env (s.timers.length + 1) s))) ∧
      (scrollEventStep env events
        (destroyStep destroyAt (fireDue env (s.timers.length + 1) s))).log.filter isDropEntry =
        s.log.filter isDropEntry := by
    unfold scrollEventStep
    split_ifs
    · exact ⟨onScroll_inv env false _ h2.1, (onScroll_ext_drops env _).trans h2.2⟩
    · exact h2
    · exact h2
  exact ⟨⟨h3.1.ids_lt, h3.1.ids_distinct, h3.1.trailing_tracked, h3.1.flag_timer⟩, h3.2⟩

/-- The initial state satisfies the invariant. -/
theorem initialState_inv : ThrottleInv initialState := by
  refine ⟨?_, ?_, ?_, ?_⟩
  · intro tm hm
    cases hm
  · exact List.Pairwise.nil
  · intro tm hm
    cases hm
  · intro hff
    exact Bool.noConfusion hff

/-- Every reachable state satisfies the invariant and its log holds no
trailing drop. -/
theorem runBinder_inv_aux (env : ℕ → ℚ) (events : List ℕ) (destroyAt : Option ℕ) :
    ∀ n : ℕ, ThrottleInv (runBinder env events destroyAt n) ∧
      (runBinder env events destroyAt n).log.filter isDropEntry = [] := by
  intro n
  induction n with
  | zero => exact ⟨initialState_inv, rfl⟩
  | succ m ih =>
    have h := tick_inv env events destroyAt (runBinder env events destroyAt m) ih.1
    exact ⟨h.1, h.2.trans ih.2⟩

/-- C9: in every event-loop run from the initial throttle state — any scroll
event schedule, any scroll positions, destroyed at any time or never — the
64ms trailing timeout, whenever it fires without having been cleared, finds
`scrollFlag = true`: the trailing re-invocation of `onScroll` is never
dropped by the throttle (the log holds no `trailingDropped` entry, so every
trailing fire performed an `animate` call). -/
theorem runBinder_trailing_never_dropped (env : ℕ → ℚ) (events : List ℕ)
    (destroyAt : Option ℕ) (n : ℕ) :
    ((runBinder env events destroyAt n).log).filter isDropEntry = [] :=
  (runBinder_inv_aux env events destroyAt n).2
